import Mathlib

/-!
Verification of `src/propositions/operators.py`: syntactic conversion of
propositional formulas to restricted operator bases.

The five entry points `to_not_and_or`, `to_not_and`, `to_nand`,
`to_implies_not`, `to_implies_false` are embedded faithfully from the
source, with the Python `raise ValueError(...)` path modelled by
`Except.error`.  The `Formula` tree type and the truth-table evaluation
function live in `propositions/syntax.py` / `propositions/semantics.py`,
which are not part of the sources at hand; they are modelled from the
specification's data-model and semantics description.
-/

namespace Operators

/-- Modelled from the spec: the immutable expression tree of
`propositions/syntax.py` (not among the sources).  A variable leaf holds an
opaque name; a constant leaf is exactly one of `T` / `F` (here `true` /
`false`); a unary node has operator symbol `~` and one child; a binary node
holds an operator-symbol string and two children.  Arity is fixed by the
node shape, as the spec's data-model invariant requires. -/
inductive Formula where
  | var (name : String)
  | const (b : Bool)
  | neg (first : Formula)
  | bin (root : String) (first second : Formula)
deriving DecidableEq

/-- Modelled from the spec: the known binary operator symbols
`{and, or, implies, xor, iff, nand, nor}` in the source's string encoding. -/
def isBinaryOp (op : String) : Bool :=
  op = "&" || op = "|" || op = "->" || op = "+" || op = "<->" ||
    op = "-&" || op = "-|"

/-- A tree is well formed when every binary node carries a known operator
symbol (variables, constants and `~`-nodes are well formed by shape). -/
def wellFormed : Formula → Bool
  | .var _ => true
  | .const _ => true
  | .neg f => wellFormed f
  | .bin op f g => isBinaryOp op && wellFormed f && wellFormed g

/-- Modelled from the spec: the truth table of one known binary operator
(`propositions/semantics.py` is not among the sources).  Unknown operator
symbols — unreachable on well-formed trees — evaluate to `false`. -/
def binEval (op : String) (x y : Bool) : Bool :=
  if op = "&" then x && y
  else if op = "|" then x || y
  else if op = "->" then !x || y
  else if op = "+" then xor x y
  else if op = "<->" then x == y
  else if op = "-&" then !(x && y)
  else if op = "-|" then !(x || y)
  else false

/-- Modelled from the spec: truth-table evaluation of a formula under a
total assignment of the variables. -/
def eval (σ : String → Bool) : Formula → Bool
  | .var s => σ s
  | .const b => b
  | .neg f => !(eval σ f)
  | .bin op f g => binEval op (eval σ f) (eval σ g)

/-- Node count of a formula tree. -/
def size : Formula → Nat
  | .var _ => 1
  | .const _ => 1
  | .neg f => 1 + size f
  | .bin _ f g => 1 + size f + size g

/-- Height of a formula tree (leaves have depth 0). -/
def depth : Formula → Nat
  | .var _ => 0
  | .const _ => 0
  | .neg f => 1 + depth f
  | .bin _ f g => 1 + max (depth f) (depth g)

/-- Does any constant node occur in the tree? -/
def hasConst : Formula → Bool
  | .var _ => false
  | .const _ => true
  | .neg f => hasConst f
  | .bin _ f g => hasConst f || hasConst g

/-- The post-recursion binary-operator dispatch of `to_not_and_or`
(source lines 29–45): `&`/`|` are rebuilt unchanged, the five derived
connectives are expanded, anything else raises. -/
def naoBin (op : String) (a b : Formula) : Except String Formula :=
  if op = "&" || op = "|" then .ok (.bin op a b)
  else if op = "->" then .ok (.bin "|" (.neg a) b)
  else if op = "+" then
    .ok (.bin "|" (.bin "&" a (.neg b)) (.bin "&" (.neg a) b))
  else if op = "<->" then
    .ok (.bin "|" (.bin "&" a b) (.bin "&" (.neg a) (.neg b)))
  else if op = "-&" then .ok (.neg (.bin "&" a b))
  else if op = "-|" then .ok (.neg (.bin "|" a b))
  else .error ("Unknown operator: " ++ op)

/-- `to_not_and_or` (source lines 13–45): variables unchanged; `T` becomes
`(p|~p)` and `F` becomes `(p&~p)` for the literal placeholder variable
`p`; `~` recurses; binary nodes recurse on both children and then dispatch
through `naoBin`. -/
def to_not_and_or : Formula → Except String Formula
  | .var s => .ok (.var s)
  | .const b =>
    if b then .ok (.bin "|" (.var "p") (.neg (.var "p")))
    else .ok (.bin "&" (.var "p") (.neg (.var "p")))
  | .neg f => do
    let x ← to_not_and_or f
    return .neg x
  | .bin op f g => do
    let a ← to_not_and_or f
    let b ← to_not_and_or g
    naoBin op a b

/-- The inner `conv` of `to_not_and` (source lines 62–78): variables and
constants unchanged, `~` and `&` rebuilt over converted children, `|`
eliminated by De Morgan, anything else raises. -/
def notAndConv : Formula → Except String Formula
  | .var s => .ok (.var s)
  | .const b => .ok (.const b)
  | .neg f => do
    let x ← notAndConv f
    return .neg x
  | .bin op f g =>
    if op = "&" then do
      let a ← notAndConv f
      let b ← notAndConv g
      return .bin "&" a b
    else if op = "|" then do
      let left ← notAndConv f
      let right ← notAndConv g
      return .neg (.bin "&" (.neg left) (.neg right))
    else .error ("Unknown operator: " ++ op)

/-- `to_not_and` (source lines 49–80): first `to_not_and_or`, then the
`conv` pass. -/
def to_not_and (formula : Formula) : Except String Formula := do
  notAndConv (← to_not_and_or formula)

/-- The inner `conv` of `to_nand` (source lines 96–109): variables and
constants unchanged; `~X` becomes `x -& x` and `X & Y` becomes
`t -& t` with `t = x -& y`, each converted child computed once and
referenced twice; anything else raises. -/
def nandConv : Formula → Except String Formula
  | .var s => .ok (.var s)
  | .const b => .ok (.const b)
  | .neg f => do
    let x ← nandConv f
    return .bin "-&" x x
  | .bin op f g =>
    if op = "&" then do
      let x ← nandConv f
      let y ← nandConv g
      let t := Formula.bin "-&" x y
      return .bin "-&" t t
    else .error ("Unknown operator: " ++ op)

/-- `to_nand` (source lines 83–111): first `to_not_and`, then the `conv`
pass. -/
def to_nand (formula : Formula) : Except String Formula := do
  nandConv (← to_not_and formula)

/-- The inner `conv` of `to_implies_not` (source lines 127–143): variables
and constants unchanged, `~` rebuilt; binary nodes convert both children
and then rewrite `|` to `(~a) -> b` and `&` to `~(a -> ~b)`; anything else
raises. -/
def impliesNotConv : Formula → Except String Formula
  | .var s => .ok (.var s)
  | .const b => .ok (.const b)
  | .neg f => do
    let x ← impliesNotConv f
    return .neg x
  | .bin op f g => do
    let a ← impliesNotConv f
    let b ← impliesNotConv g
    if op = "|" then return .bin "->" (.neg a) b
    else if op = "&" then return .neg (.bin "->" a (.neg b))
    else Except.error ("Unknown operator: " ++ op)

/-- `to_implies_not` (source lines 114–145): first `to_not_and_or`, then
the `conv` pass. -/
def to_implies_not (formula : Formula) : Except String Formula := do
  impliesNotConv (← to_not_and_or formula)

/-- The inner `conv` of `to_implies_false` (source lines 161–184):
variables and `F` unchanged, `T` becomes `F -> F`; `~X` becomes
`x -> F`; binary nodes convert both children and then rewrite `|` to
`(a -> F) -> b` and `&` to `(a -> (b -> F)) -> F`; anything else raises. -/
def impliesFalseConv : Formula → Except String Formula
  | .var s => .ok (.var s)
  | .const b =>
    if b = false then .ok (.const false)
    else .ok (.bin "->" (.const false) (.const false))
  | .neg f => do
    let x ← impliesFalseConv f
    return .bin "->" x (.const false)
  | .bin op f g => do
    let a ← impliesFalseConv f
    let b ← impliesFalseConv g
    if op = "|" then return .bin "->" (.bin "->" a (.const false)) b
    else if op = "&" then
      return .bin "->" (.bin "->" a (.bin "->" b (.const false)))
        (.const false)
    else Except.error ("Unknown operator: " ++ op)

/-- `to_implies_false` (source lines 148–186): first `to_not_and_or`, then
the `conv` pass. -/
def to_implies_false (formula : Formula) : Except String Formula := do
  impliesFalseConv (← to_not_and_or formula)

/-- Node count of a successful result (`0` for an error). -/
def okSize : Except String Formula → Nat
  | .ok g => size g
  | .error _ => 0

/-- Every node's operator lies in `{~, &, |}`, and no constants occur:
the guaranteed output set of `to_not_and_or`. -/
def onlyNotAndOr : Formula → Bool
  | .var _ => true
  | .const _ => false
  | .neg f => onlyNotAndOr f
  | .bin op f g => (op = "&" || op = "|") && onlyNotAndOr f && onlyNotAndOr g

/-- Every node's operator lies in `{~, &}`, and no constants occur:
the guaranteed output set of `to_not_and`. -/
def onlyNotAnd : Formula → Bool
  | .var _ => true
  | .const _ => false
  | .neg f => onlyNotAnd f
  | .bin op f g => (op = "&") && onlyNotAnd f && onlyNotAnd g

/-- Every internal node is a `-&` node, and no constants occur:
the guaranteed output set of `to_nand`. -/
def onlyNand : Formula → Bool
  | .var _ => true
  | .const _ => false
  | .neg _ => false
  | .bin op f g => (op = "-&") && onlyNand f && onlyNand g

/-- Every node's operator lies in `{->, ~}`, and no constants occur:
the guaranteed output set of `to_implies_not`. -/
def onlyImpliesNot : Formula → Bool
  | .var _ => true
  | .const _ => false
  | .neg f => onlyImpliesNot f
  | .bin op f g => (op = "->") && onlyImpliesNot f && onlyImpliesNot g

/-- Every internal node is a `->` node, the only constant is `F`, and no
`~` occurs: the guaranteed output set of `to_implies_false`. -/
def onlyImpliesFalse : Formula → Bool
  | .var _ => true
  | .const b => b = false
  | .neg _ => false
  | .bin op f g => (op = "->") && onlyImpliesFalse f && onlyImpliesFalse g

/-- Total mirror of `to_not_and_or`: agrees with it on every well-formed
tree (`to_not_and_or_eq_ok`); on the error branch it rebuilds the node
instead of raising. -/
def naoT : Formula → Formula
  | .var s => .var s
  | .const b =>
    if b then .bin "|" (.var "p") (.neg (.var "p"))
    else .bin "&" (.var "p") (.neg (.var "p"))
  | .neg f => .neg (naoT f)
  | .bin op f g =>
    let a := naoT f
    let b := naoT g
    if op = "&" || op = "|" then .bin op a b
    else if op = "->" then .bin "|" (.neg a) b
    else if op = "+" then
      .bin "|" (.bin "&" a (.neg b)) (.bin "&" (.neg a) b)
    else if op = "<->" then
      .bin "|" (.bin "&" a b) (.bin "&" (.neg a) (.neg b))
    else if op = "-&" then .neg (.bin "&" a b)
    else if op = "-|" then .neg (.bin "|" a b)
    else .bin op a b

/-- Total mirror of the `conv` pass of `to_not_and`; on the error branch
it rebuilds the node instead of raising. -/
def notAndConvT : Formula → Formula
  | .var s => .var s
  | .const b => .const b
  | .neg f => .neg (notAndConvT f)
  | .bin op f g =>
    if op = "&" then .bin "&" (notAndConvT f) (notAndConvT g)
    else if op = "|" then
      .neg (.bin "&" (.neg (notAndConvT f)) (.neg (notAndConvT g)))
    else .bin op (notAndConvT f) (notAndConvT g)

/-- Total mirror of the `conv` pass of `to_nand`; on the error branch it
rebuilds the node instead of raising. -/
def nandConvT : Formula → Formula
  | .var s => .var s
  | .const b => .const b
  | .neg f =>
    let x := nandConvT f
    .bin "-&" x x
  | .bin op f g =>
    if op = "&" then
      let t := Formula.bin "-&" (nandConvT f) (nandConvT g)
      .bin "-&" t t
    else .bin op (nandConvT f) (nandConvT g)

/-- Total mirror of the `conv` pass of `to_implies_not`; on the error
branch it rebuilds the node instead of raising. -/
def impliesNotConvT : Formula → Formula
  | .var s => .var s
  | .const b => .const b
  | .neg f => .neg (impliesNotConvT f)
  | .bin op f g =>
    let a := impliesNotConvT f
    let b := impliesNotConvT g
    if op = "|" then .bin "->" (.neg a) b
    else if op = "&" then .neg (.bin "->" a (.neg b))
    else .bin op a b

/-- Total mirror of the `conv` pass of `to_implies_false`; on the error
branch it rebuilds the node instead of raising. -/
def impliesFalseConvT : Formula → Formula
  | .var s => .var s
  | .const b =>
    if b = false then .const false
    else .bin "->" (.const false) (.const false)
  | .neg f => .bin "->" (impliesFalseConvT f) (.const false)
  | .bin op f g =>
    let a := impliesFalseConvT f
    let b := impliesFalseConvT g
    if op = "|" then .bin "->" (.bin "->" a (.const false)) b
    else if op = "&" then
      .bin "->" (.bin "->" a (.bin "->" b (.const false))) (.const false)
    else .bin op a b

/-- Total mirror of `to_not_and`. -/
def to_not_andT (f : Formula) : Formula := notAndConvT (naoT f)

/-- Total mirror of `to_nand`. -/
def to_nandT (f : Formula) : Formula := nandConvT (to_not_andT f)

/-- Total mirror of `to_implies_not`. -/
def to_implies_notT (f : Formula) : Formula := impliesNotConvT (naoT f)

/-- Total mirror of `to_implies_false`. -/
def to_implies_falseT (f : Formula) : Formula := impliesFalseConvT (naoT f)

deriving instance DecidableEq for Except

theorem binEval_and (x y : Bool) : binEval "&" x y = (x && y) := rfl

theorem binEval_or (x y : Bool) : binEval "|" x y = (x || y) := rfl

theorem binEval_imp (x y : Bool) : binEval "->" x y = (!x || y) := rfl

theorem binEval_xor (x y : Bool) : binEval "+" x y = xor x y := rfl

theorem binEval_iff (x y : Bool) : binEval "<->" x y = (x == y) := rfl

theorem binEval_nand (x y : Bool) : binEval "-&" x y = !(x && y) := rfl

theorem binEval_nor (x y : Bool) : binEval "-|" x y = !(x || y) := rfl

theorem ok_bind (a : Formula) (k : Formula → Except String Formula) :
    ((Except.ok a : Except String Formula) >>= k) = k a := rfl

theorem error_bind (e : String) (k : Formula → Except String Formula) :
    ((Except.error e : Except String Formula) >>= k) = Except.error e := rfl

theorem isBinaryOp_cases {op : String} (h : isBinaryOp op = true) :
    op = "&" ∨ op = "|" ∨ op = "->" ∨ op = "+" ∨ op = "<->" ∨
      op = "-&" ∨ op = "-|" := by
  simp only [isBinaryOp, Bool.or_eq_true, decide_eq_true_eq] at h
  tauto

/-- On well-formed input, `to_not_and_or` succeeds and returns the total
mirror's value. -/
theorem to_not_and_or_eq_ok (f : Formula) (h : wellFormed f = true) :
    to_not_and_or f = .ok (naoT f) := by
  induction f with
  | var s => rfl
  | const b => cases b <;> rfl
  | neg f ih =>
    simp only [wellFormed] at h
    simp [to_not_and_or, naoT, ih h]
  | bin op f g ihf ihg =>
    simp only [wellFormed, Bool.and_eq_true] at h
    obtain ⟨⟨hop, hf⟩, hg⟩ := h
    rcases isBinaryOp_cases hop with h | h | h | h | h | h | h <;>
      subst h <;>
      simp [to_not_and_or, naoT, naoBin, ok_bind, ihf hf, ihg hg]

/-- `to_not_and_or` succeeds only on well-formed input. -/
theorem wellFormed_of_to_not_and_or_ok {f r : Formula}
    (h : to_not_and_or f = .ok r) : wellFormed f = true := by
  induction f generalizing r with
  | var s => rfl
  | const b => rfl
  | neg f ih =>
    simp only [to_not_and_or] at h
    cases hf : to_not_and_or f with
    | error e => rw [hf, error_bind] at h; exact absurd h (by simp)
    | ok a => exact ih hf
  | bin op f g ihf ihg =>
    simp only [to_not_and_or] at h
    cases hf : to_not_and_or f with
    | error e => rw [hf, error_bind] at h; exact absurd h (by simp)
    | ok a =>
      rw [hf, ok_bind] at h
      cases hg : to_not_and_or g with
      | error e => rw [hg, error_bind] at h; exact absurd h (by simp)
      | ok b =>
        rw [hg, ok_bind] at h
        simp only [wellFormed, Bool.and_eq_true]
        refine ⟨⟨?_, ihf hf⟩, ihg hg⟩
        by_contra hop
        simp only [Bool.not_eq_true] at hop
        unfold naoBin at h
        simp only [isBinaryOp, Bool.or_eq_false_iff,
          decide_eq_false_iff_not] at hop
        obtain ⟨⟨⟨⟨⟨⟨h1, h2⟩, h3⟩, h4⟩, h5⟩, h6⟩, h7⟩ := hop
        simp [h1, h2, h3, h4, h5, h6, h7] at h

/-- The base reducer's output stays inside `{~, &, |}` with no constants. -/
theorem onlyNotAndOr_naoT (f : Formula) (h : wellFormed f = true) :
    onlyNotAndOr (naoT f) = true := by
  induction f with
  | var s => rfl
  | const b => cases b <;> rfl
  | neg f ih =>
    simp only [wellFormed] at h
    simpa [naoT, onlyNotAndOr] using ih h
  | bin op f g ihf ihg =>
    simp only [wellFormed, Bool.and_eq_true] at h
    obtain ⟨⟨hop, hf⟩, hg⟩ := h
    rcases isBinaryOp_cases hop with h | h | h | h | h | h | h <;> subst h <;>
      simp [naoT, onlyNotAndOr, ihf hf, ihg hg]

/-- A tree inside `{~, &, |}` is well formed. -/
theorem wellFormed_of_onlyNotAndOr {f : Formula}
    (h : onlyNotAndOr f = true) : wellFormed f = true := by
  induction f with
  | var s => rfl
  | const b => simp [onlyNotAndOr] at h
  | neg f ih =>
    simp only [onlyNotAndOr] at h
    simpa [wellFormed] using ih h
  | bin op f g ihf ihg =>
    simp only [onlyNotAndOr, Bool.and_eq_true, Bool.or_eq_true,
      decide_eq_true_eq] at h
    obtain ⟨⟨hop, hf⟩, hg⟩ := h
    rcases hop with h | h <;> subst h <;>
      simp [wellFormed, isBinaryOp, ihf hf, ihg hg]

/-- A tree inside `{~, &}` is well formed. -/
theorem wellFormed_of_onlyNotAnd {f : Formula}
    (h : onlyNotAnd f = true) : wellFormed f = true := by
  induction f with
  | var s => rfl
  | const b => simp [onlyNotAnd] at h
  | neg f ih =>
    simp only [onlyNotAnd] at h
    simpa [wellFormed] using ih h
  | bin op f g ihf ihg =>
    simp only [onlyNotAnd, Bool.and_eq_true, decide_eq_true_eq] at h
    obtain ⟨⟨hop, hf⟩, hg⟩ := h
    subst hop
    simp [wellFormed, isBinaryOp, ihf hf, ihg hg]

/-- A tree of `-&` nodes is well formed. -/
theorem wellFormed_of_onlyNand {f : Formula}
    (h : onlyNand f = true) : wellFormed f = true := by
  induction f with
  | var s => rfl
  | const b => simp [onlyNand] at h
  | neg f ih => simp [onlyNand] at h
  | bin op f g ihf ihg =>
    simp only [onlyNand, Bool.and_eq_true, decide_eq_true_eq] at h
    obtain ⟨⟨hop, hf⟩, hg⟩ := h
    subst hop
    simp [wellFormed, isBinaryOp, ihf hf, ihg hg]

/-- A tree inside `{->, ~}` is well formed. -/
theorem wellFormed_of_onlyImpliesNot {f : Formula}
    (h : onlyImpliesNot f = true) : wellFormed f = true := by
  induction f with
  | var s => rfl
  | const b => simp [onlyImpliesNot] at h
  | neg f ih =>
    simp only [onlyImpliesNot] at h
    simpa [wellFormed] using ih h
  | bin op f g ihf ihg =>
    simp only [onlyImpliesNot, Bool.and_eq_true, decide_eq_true_eq] at h
    obtain ⟨⟨hop, hf⟩, hg⟩ := h
    subst hop
    simp [wellFormed, isBinaryOp, ihf hf, ihg hg]

/-- A tree inside `{->, F}` is well formed. -/
theorem wellFormed_of_onlyImpliesFalse {f : Formula}
    (h : onlyImpliesFalse f = true) : wellFormed f = true := by
  induction f with
  | var s => rfl
  | const b => rfl
  | neg f ih => simp [onlyImpliesFalse] at h
  | bin op f g ihf ihg =>
    simp only [onlyImpliesFalse, Bool.and_eq_true, decide_eq_true_eq] at h
    obtain ⟨⟨hop, hf⟩, hg⟩ := h
    subst hop
    simp [wellFormed, isBinaryOp, ihf hf, ihg hg]

/-- On `{~, &, |}`-trees, the `conv` pass of `to_not_and` succeeds and
returns the total mirror's value. -/
theorem notAndConv_eq_ok (h : Formula) (hh : onlyNotAndOr h = true) :
    notAndConv h = .ok (notAndConvT h) := by
  induction h with
  | var s => rfl
  | const b => simp [onlyNotAndOr] at hh
  | neg f ih =>
    simp only [onlyNotAndOr] at hh
    simp [notAndConv, notAndConvT, ok_bind, ih hh]
  | bin op f g ihf ihg =>
    simp only [onlyNotAndOr, Bool.and_eq_true, Bool.or_eq_true,
      decide_eq_true_eq] at hh
    obtain ⟨⟨hop, hf⟩, hg⟩ := hh
    rcases hop with h | h <;> subst h <;>
      simp [notAndConv, notAndConvT, ok_bind, ihf hf, ihg hg]

/-- The `conv` pass of `to_not_and` keeps `{~, &, |}`-trees with no
constants inside `{~, &}` with no constants. -/
theorem onlyNotAnd_notAndConvT (h : Formula) (hh : onlyNotAndOr h = true) :
    onlyNotAnd (notAndConvT h) = true := by
  induction h with
  | var s => rfl
  | const b => simp [onlyNotAndOr] at hh
  | neg f ih =>
    simp only [onlyNotAndOr] at hh
    simpa [notAndConvT, onlyNotAnd] using ih hh
  | bin op f g ihf ihg =>
    simp only [onlyNotAndOr, Bool.and_eq_true, Bool.or_eq_true,
      decide_eq_true_eq] at hh
    obtain ⟨⟨hop, hf⟩, hg⟩ := hh
    rcases hop with h | h <;> subst h <;>
      simp [notAndConvT, onlyNotAnd, ihf hf, ihg hg]

/-- On `{~, &}`-trees, the `conv` pass of `to_nand` succeeds and returns
the total mirror's value. -/
theorem nandConv_eq_ok (h : Formula) (hh : onlyNotAnd h = true) :
    nandConv h = .ok (nandConvT h) := by
  induction h with
  | var s => rfl
  | const b => simp [onlyNotAnd] at hh
  | neg f ih =>
    simp only [onlyNotAnd] at hh
    simp [nandConv, nandConvT, ok_bind, ih hh]
  | bin op f g ihf ihg =>
    simp only [onlyNotAnd, Bool.and_eq_true, decide_eq_true_eq] at hh
    obtain ⟨⟨hop, hf⟩, hg⟩ := hh
    subst hop
    simp [nandConv, nandConvT, ok_bind, ihf hf, ihg hg]

/-- The `conv` pass of `to_nand` keeps constant-free `{~, &}`-trees inside
pure `-&`-trees. -/
theorem onlyNand_nandConvT (h : Formula) (hh : onlyNotAnd h = true) :
    onlyNand (nandConvT h) = true := by
  induction h with
  | var s => rfl
  | const b => simp [onlyNotAnd] at hh
  | neg f ih =>
    simp only [onlyNotAnd] at hh
    simpa [nandConvT, onlyNand] using ih hh
  | bin op f g ihf ihg =>
    simp only [onlyNotAnd, Bool.and_eq_true, decide_eq_true_eq] at hh
    obtain ⟨⟨hop, hf⟩, hg⟩ := hh
    subst hop
    simp [nandConvT, onlyNand, ihf hf, ihg hg]

/-- On `{~, &, |}`-trees, the `conv` pass of `to_implies_not` succeeds and
returns the total mirror's value. -/
theorem impliesNotConv_eq_ok (h : Formula) (hh : onlyNotAndOr h = true) :
    impliesNotConv h = .ok (impliesNotConvT h) := by
  induction h with
  | var s => rfl
  | const b => simp [onlyNotAndOr] at hh
  | neg f ih =>
    simp only [onlyNotAndOr] at hh
    simp [impliesNotConv, impliesNotConvT, ok_bind, ih hh]
  | bin op f g ihf ihg =>
    simp only [onlyNotAndOr, Bool.and_eq_true, Bool.or_eq_true,
      decide_eq_true_eq] at hh
    obtain ⟨⟨hop, hf⟩, hg⟩ := hh
    rcases hop with h | h <;> subst h <;>
      simp [impliesNotConv, impliesNotConvT, ok_bind, ihf hf, ihg hg]

/-- The `conv` pass of `to_implies_not` keeps constant-free
`{~, &, |}`-trees inside `{->, ~}` with no constants. -/
theorem onlyImpliesNot_impliesNotConvT (h : Formula)
    (hh : onlyNotAndOr h = true) :
    onlyImpliesNot (impliesNotConvT h) = true := by
  induction h with
  | var s => rfl
  | const b => simp [onlyNotAndOr] at hh
  | neg f ih =>
    simp only [onlyNotAndOr] at hh
    simpa [impliesNotConvT, onlyImpliesNot] using ih hh
  | bin op f g ihf ihg =>
    simp only [onlyNotAndOr, Bool.and_eq_true, Bool.or_eq_true,
      decide_eq_true_eq] at hh
    obtain ⟨⟨hop, hf⟩, hg⟩ := hh
    rcases hop with h | h <;> subst h <;>
      simp [impliesNotConvT, onlyImpliesNot, ihf hf, ihg hg]

/-- On `{~, &, |}`-trees, the `conv` pass of `to_implies_false` succeeds
and returns the total mirror's value. -/
theorem impliesFalseConv_eq_ok (h : Formula) (hh : onlyNotAndOr h = true) :
    impliesFalseConv h = .ok (impliesFalseConvT h) := by
  induction h with
  | var s => rfl
  | const b => simp [onlyNotAndOr] at hh
  | neg f ih =>
    simp only [onlyNotAndOr] at hh
    simp [impliesFalseConv, impliesFalseConvT, ok_bind, ih hh]
  | bin op f g ihf ihg =>
    simp only [onlyNotAndOr, Bool.and_eq_true, Bool.or_eq_true,
      decide_eq_true_eq] at hh
    obtain ⟨⟨hop, hf⟩, hg⟩ := hh
    rcases hop with h | h <;> subst h <;>
      simp [impliesFalseConv, impliesFalseConvT, ok_bind, ihf hf, ihg hg]

/-- The `conv` pass of `to_implies_false` keeps constant-free
`{~, &, |}`-trees inside `{->, F}`. -/
theorem onlyImpliesFalse_impliesFalseConvT (h : Formula)
    (hh : onlyNotAndOr h = true) :
    onlyImpliesFalse (impliesFalseConvT h) = true := by
  induction h with
  | var s => rfl
  | const b => simp [onlyNotAndOr] at hh
  | neg f ih =>
    simp only [onlyNotAndOr] at hh
    simpa [impliesFalseConvT, onlyImpliesFalse] using ih hh
  | bin op f g ihf ihg =>
    simp only [onlyNotAndOr, Bool.and_eq_true, Bool.or_eq_true,
      decide_eq_true_eq] at hh
    obtain ⟨⟨hop, hf⟩, hg⟩ := hh
    rcases hop with h | h <;> subst h <;>
      simp [impliesFalseConvT, onlyImpliesFalse, ihf hf, ihg hg]

/-- On well-formed input, `to_not_and` succeeds and returns the total
mirror's value. -/
theorem to_not_and_eq_ok (f : Formula) (h : wellFormed f = true) :
    to_not_and f = .ok (to_not_andT f) := by
  unfold to_not_and to_not_andT
  rw [to_not_and_or_eq_ok f h, ok_bind]
  exact notAndConv_eq_ok _ (onlyNotAndOr_naoT f h)

/-- On well-formed input, `to_nand` succeeds and returns the total
mirror's value. -/
theorem to_nand_eq_ok (f : Formula) (h : wellFormed f = true) :
    to_nand f = .ok (to_nandT f) := by
  unfold to_nand to_nandT
  rw [to_not_and_eq_ok f h, ok_bind]
  exact nandConv_eq_ok _
    (onlyNotAnd_notAndConvT _ (onlyNotAndOr_naoT f h))

/-- On well-formed input, `to_implies_not` succeeds and returns the total
mirror's value. -/
theorem to_implies_not_eq_ok (f : Formula) (h : wellFormed f = true) :
    to_implies_not f = .ok (to_implies_notT f) := by
  unfold to_implies_not to_implies_notT
  rw [to_not_and_or_eq_ok f h, ok_bind]
  exact impliesNotConv_eq_ok _ (onlyNotAndOr_naoT f h)

/-- On well-formed input, `to_implies_false` succeeds and returns the
total mirror's value. -/
theorem to_implies_false_eq_ok (f : Formula) (h : wellFormed f = true) :
    to_implies_false f = .ok (to_implies_falseT f) := by
  unfold to_implies_false to_implies_falseT
  rw [to_not_and_or_eq_ok f h, ok_bind]
  exact impliesFalseConv_eq_ok _ (onlyNotAndOr_naoT f h)

/-- `to_not_and` succeeds only on well-formed input. -/
theorem wellFormed_of_to_not_and_ok {f r : Formula}
    (h : to_not_and f = .ok r) : wellFormed f = true := by
  unfold to_not_and at h
  cases hf : to_not_and_or f with
  | error e => rw [hf, error_bind] at h; exact absurd h (by simp)
  | ok a => exact wellFormed_of_to_not_and_or_ok hf

/-- `to_nand` succeeds only on well-formed input. -/
theorem wellFormed_of_to_nand_ok {f r : Formula}
    (h : to_nand f = .ok r) : wellFormed f = true := by
  unfold to_nand at h
  cases hf : to_not_and f with
  | error e => rw [hf, error_bind] at h; exact absurd h (by simp)
  | ok a => exact wellFormed_of_to_not_and_ok hf

/-- `to_implies_not` succeeds only on well-formed input. -/
theorem wellFormed_of_to_implies_not_ok {f r : Formula}
    (h : to_implies_not f = .ok r) : wellFormed f = true := by
  unfold to_implies_not at h
  cases hf : to_not_and_or f with
  | error e => rw [hf, error_bind] at h; exact absurd h (by simp)
  | ok a => exact wellFormed_of_to_not_and_or_ok hf

/-- `to_implies_false` succeeds only on well-formed input. -/
theorem wellFormed_of_to_implies_false_ok {f r : Formula}
    (h : to_implies_false f = .ok r) : wellFormed f = true := by
  unfold to_implies_false at h
  cases hf : to_not_and_or f with
  | error e => rw [hf, error_bind] at h; exact absurd h (by simp)
  | ok a => exact wellFormed_of_to_not_and_or_ok hf

/-- A constant-free `{~, &}`-tree has no constant nodes. -/
theorem hasConst_of_onlyNotAnd {f : Formula}
    (h : onlyNotAnd f = true) : hasConst f = false := by
  induction f with
  | var s => rfl
  | const b => simp [onlyNotAnd] at h
  | neg f ih =>
    simp only [onlyNotAnd] at h
    simpa [hasConst] using ih h
  | bin op f g ihf ihg =>
    simp only [onlyNotAnd, Bool.and_eq_true] at h
    simp [hasConst, ihf h.1.2, ihg h.2]

/-- A pure `-&`-tree has no constant nodes. -/
theorem hasConst_of_onlyNand {f : Formula}
    (h : onlyNand f = true) : hasConst f = false := by
  induction f with
  | var s => rfl
  | const b => simp [onlyNand] at h
  | neg f ih => simp [onlyNand] at h
  | bin op f g ihf ihg =>
    simp only [onlyNand, Bool.and_eq_true] at h
    simp [hasConst, ihf h.1.2, ihg h.2]

/-- A constant-free `{->, ~}`-tree has no constant nodes. -/
theorem hasConst_of_onlyImpliesNot {f : Formula}
    (h : onlyImpliesNot f = true) : hasConst f = false := by
  induction f with
  | var s => rfl
  | const b => simp [onlyImpliesNot] at h
  | neg f ih =>
    simp only [onlyImpliesNot] at h
    simpa [hasConst] using ih h
  | bin op f g ihf ihg =>
    simp only [onlyImpliesNot, Bool.and_eq_true] at h
    simp [hasConst, ihf h.1.2, ihg h.2]

/-- The base reducer preserves the truth table (total mirror). -/
theorem eval_naoT (σ : String → Bool) (f : Formula) :
    eval σ (naoT f) = eval σ f := by
  induction f with
  | var s => rfl
  | const b => cases b <;> simp [naoT, eval, binEval_or, binEval_and]
  | neg f ih => simp [naoT, eval, ih]
  | bin op f g ihf ihg =>
    simp only [naoT]
    split_ifs with h1 h2 h3 h4 h5 h6
    · simp only [Bool.or_eq_true, decide_eq_true_eq] at h1
      rcases h1 with h | h <;> subst h <;>
        simp [eval, binEval_and, binEval_or, ihf, ihg]
    · subst h2
      simp [eval, binEval_imp, binEval_or, ihf, ihg]
    · subst h3
      simp only [eval, binEval_xor, binEval_or, binEval_and, ihf, ihg]
      cases eval σ f <;> cases eval σ g <;> rfl
    · subst h4
      simp only [eval, binEval_iff, binEval_or, binEval_and, ihf, ihg]
      cases eval σ f <;> cases eval σ g <;> rfl
    · subst h5
      simp [eval, binEval_nand, binEval_and, ihf, ihg]
    · subst h6
      simp [eval, binEval_nor, binEval_or, ihf, ihg]
    · simp [eval, ihf, ihg]

/-- The `conv` pass of `to_not_and` preserves the truth table (total
mirror). -/
theorem eval_notAndConvT (σ : String → Bool) (f : Formula) :
    eval σ (notAndConvT f) = eval σ f := by
  induction f with
  | var s => rfl
  | const b => rfl
  | neg f ih => simp [notAndConvT, eval, ih]
  | bin op f g ihf ihg =>
    simp only [notAndConvT]
    split_ifs with h1 h2
    · subst h1
      simp [eval, binEval_and, ihf, ihg]
    · subst h2
      simp only [eval, binEval_and, binEval_or, ihf, ihg]
      cases eval σ f <;> cases eval σ g <;> rfl
    · simp [eval, ihf, ihg]

/-- The `conv` pass of `to_nand` preserves the truth table (total
mirror). -/
theorem eval_nandConvT (σ : String → Bool) (f : Formula) :
    eval σ (nandConvT f) = eval σ f := by
  induction f with
  | var s => rfl
  | const b => rfl
  | neg f ih =>
    simp only [nandConvT, eval, binEval_nand, ih]
    cases eval σ f <;> rfl
  | bin op f g ihf ihg =>
    simp only [nandConvT]
    split_ifs with h1
    · subst h1
      simp only [eval, binEval_nand, binEval_and, ihf, ihg]
      cases eval σ f <;> cases eval σ g <;> rfl
    · simp [eval, ihf, ihg]

/-- The `conv` pass of `to_implies_not` preserves the truth table (total
mirror). -/
theorem eval_impliesNotConvT (σ : String → Bool) (f : Formula) :
    eval σ (impliesNotConvT f) = eval σ f := by
  induction f with
  | var s => rfl
  | const b => rfl
  | neg f ih => simp [impliesNotConvT, eval, ih]
  | bin op f g ihf ihg =>
    simp only [impliesNotConvT]
    split_ifs with h1 h2
    · subst h1
      simp only [eval, binEval_imp, binEval_or, ihf, ihg]
      cases eval σ f <;> cases eval σ g <;> rfl
    · subst h2
      simp only [eval, binEval_imp, binEval_and, ihf, ihg]
      cases eval σ f <;> cases eval σ g <;> rfl
    · simp [eval, ihf, ihg]

/-- The `conv` pass of `to_implies_false` preserves the truth table (total
mirror). -/
theorem eval_impliesFalseConvT (σ : String → Bool) (f : Formula) :
    eval σ (impliesFalseConvT f) = eval σ f := by
  induction f with
  | var s => rfl
  | const b => cases b <;> rfl
  | neg f ih =>
    simp only [impliesFalseConvT, eval, binEval_imp, ih]
    cases eval σ f <;> rfl
  | bin op f g ihf ihg =>
    simp only [impliesFalseConvT]
    split_ifs with h1 h2
    · subst h1
      simp only [eval, binEval_imp, binEval_or, ihf, ihg]
      cases eval σ f <;> cases eval σ g <;> rfl
    · subst h2
      simp only [eval, binEval_imp, binEval_and, ihf, ihg]
      cases eval σ f <;> cases eval σ g <;> rfl
    · simp [eval, ihf, ihg]

/-- `to_not_and` preserves the truth table (total mirror). -/
theorem eval_to_not_andT (σ : String → Bool) (f : Formula) :
    eval σ (to_not_andT f) = eval σ f := by
  simp [to_not_andT, eval_notAndConvT, eval_naoT]

/-- `to_nand` preserves the truth table (total mirror). -/
theorem eval_to_nandT (σ : String → Bool) (f : Formula) :
    eval σ (to_nandT f) = eval σ f := by
  simp [to_nandT, eval_nandConvT, eval_to_not_andT]

/-- `to_implies_not` preserves the truth table (total mirror). -/
theorem eval_to_implies_notT (σ : String → Bool) (f : Formula) :
    eval σ (to_implies_notT f) = eval σ f := by
  simp [to_implies_notT, eval_impliesNotConvT, eval_naoT]

/-- `to_implies_false` preserves the truth table (total mirror). -/
theorem eval_to_implies_falseT (σ : String → Bool) (f : Formula) :
    eval σ (to_implies_falseT f) = eval σ f := by
  simp [to_implies_falseT, eval_impliesFalseConvT, eval_naoT]

/-- The base reducer can double each subtree per level (xor and iff
duplicate both children), so its size bound is exponential in the depth. -/
theorem size_naoT (f : Formula) :
    size (naoT f) ≤ 2 ^ (depth f + 2) * size f := by
  induction f with
  | var s => simp [naoT, size, depth]
  | const b => cases b <;> simp [naoT, size, depth]
  | neg f ih =>
    have hx : (4 : Nat) ≤ 2 ^ (depth f + 2) := by
      calc (4 : Nat) = 2 ^ 2 := by norm_num
      _ ≤ 2 ^ (depth f + 2) := Nat.pow_le_pow_right (by omega) (by omega)
    simp only [naoT, size, depth]
    rw [show 1 + depth f + 2 = (depth f + 2) + 1 from by omega, pow_succ]
    nlinarith [ih, hx]
  | bin op f g ihf ihg =>
    have key : size (naoT (Formula.bin op f g)) ≤
        2 * size (naoT f) + 2 * size (naoT g) + 5 := by
      simp only [naoT]
      split_ifs <;> simp only [size] <;> omega
    have hM1 : size (naoT f) ≤
        2 ^ (max (depth f) (depth g) + 2) * size f :=
      le_trans ihf
        (Nat.mul_le_mul (Nat.pow_le_pow_right (by omega) (by omega))
          (le_refl _))
    have hM2 : size (naoT g) ≤
        2 ^ (max (depth f) (depth g) + 2) * size g :=
      le_trans ihg
        (Nat.mul_le_mul (Nat.pow_le_pow_right (by omega) (by omega))
          (le_refl _))
    have hx : (4 : Nat) ≤ 2 ^ (max (depth f) (depth g) + 2) := by
      calc (4 : Nat) = 2 ^ 2 := by norm_num
      _ ≤ _ := Nat.pow_le_pow_right (by omega) (by omega)
    calc size (naoT (Formula.bin op f g)) ≤
        2 * size (naoT f) + 2 * size (naoT g) + 5 := key
    _ ≤ 2 ^ (depth (Formula.bin op f g) + 2) *
        size (Formula.bin op f g) := by
        simp only [depth, size]
        rw [show 1 + max (depth f) (depth g) + 2 =
          (max (depth f) (depth g) + 2) + 1 from by omega, pow_succ]
        nlinarith [hM1, hM2, hx]

/-- Depth growth of the base reducer is linear. -/
theorem depth_naoT (f : Formula) : depth (naoT f) ≤ 3 * depth f + 2 := by
  induction f with
  | var s => simp [naoT, depth]
  | const b => cases b <;> simp [naoT, depth]
  | neg f ih => simp only [naoT, depth]; omega
  | bin op f g ihf ihg =>
    simp only [naoT]
    split_ifs <;> simp only [depth] <;> omega

/-- The `conv` pass of `to_not_and` grows size at most fourfold (the De
Morgan rewrite adds three nodes per `|`). -/
theorem size_notAndConvT (f : Formula) :
    size (notAndConvT f) ≤ 4 * size f := by
  induction f with
  | var s => simp [notAndConvT, size]
  | const b => simp [notAndConvT, size]
  | neg f ih => simp only [notAndConvT, size]; omega
  | bin op f g ihf ihg =>
    simp only [notAndConvT]
    split_ifs <;> simp only [size] <;> omega

/-- Depth growth of the `conv` pass of `to_not_and` is linear. -/
theorem depth_notAndConvT (f : Formula) :
    depth (notAndConvT f) ≤ 3 * depth f + 2 := by
  induction f with
  | var s => simp [notAndConvT, depth]
  | const b => simp [notAndConvT, depth]
  | neg f ih => simp only [notAndConvT, depth]; omega
  | bin op f g ihf ihg =>
    simp only [notAndConvT]
    split_ifs <;> simp only [depth] <;> omega

/-- The `conv` pass of `to_nand` duplicates the converted child at every
`~` and `&` node, so its size bound is exponential in the depth. -/
theorem size_nandConvT (f : Formula) :
    size (nandConvT f) ≤ 2 ^ (depth f + 1) * size f := by
  induction f with
  | var s => simp [nandConvT, size, depth]
  | const b => simp [nandConvT, size, depth]
  | neg f ih =>
    have hx : (2 : Nat) ≤ 2 ^ (depth f + 1) := by
      calc (2 : Nat) = 2 ^ 1 := by norm_num
      _ ≤ 2 ^ (depth f + 1) := Nat.pow_le_pow_right (by omega) (by omega)
    simp only [nandConvT, size, depth]
    rw [show 1 + depth f + 1 = (depth f + 1) + 1 from by omega, pow_succ]
    nlinarith [ih, hx]
  | bin op f g ihf ihg =>
    have key : size (nandConvT (Formula.bin op f g)) ≤
        2 * size (nandConvT f) + 2 * size (nandConvT g) + 3 := by
      simp only [nandConvT]
      split_ifs <;> simp only [size] <;> omega
    have hM1 : size (nandConvT f) ≤
        2 ^ (max (depth f) (depth g) + 1) * size f :=
      le_trans ihf
        (Nat.mul_le_mul (Nat.pow_le_pow_right (by omega) (by omega))
          (le_refl _))
    have hM2 : size (nandConvT g) ≤
        2 ^ (max (depth f) (depth g) + 1) * size g :=
      le_trans ihg
        (Nat.mul_le_mul (Nat.pow_le_pow_right (by omega) (by omega))
          (le_refl _))
    have hx : (2 : Nat) ≤ 2 ^ (max (depth f) (depth g) + 1) := by
      calc (2 : Nat) = 2 ^ 1 := by norm_num
      _ ≤ _ := Nat.pow_le_pow_right (by omega) (by omega)
    calc size (nandConvT (Formula.bin op f g)) ≤
        2 * size (nandConvT f) + 2 * size (nandConvT g) + 3 := key
    _ ≤ 2 ^ (depth (Formula.bin op f g) + 1) *
        size (Formula.bin op f g) := by
        simp only [depth, size]
        rw [show 1 + max (depth f) (depth g) + 1 =
          (max (depth f) (depth g) + 1) + 1 from by omega, pow_succ]
        nlinarith [hM1, hM2, hx]

/-- The `conv` pass of `to_implies_not` grows size at most threefold. -/
theorem size_impliesNotConvT (f : Formula) :
    size (impliesNotConvT f) ≤ 3 * size f := by
  induction f with
  | var s => simp [impliesNotConvT, size]
  | const b => simp [impliesNotConvT, size]
  | neg f ih => simp only [impliesNotConvT, size]; omega
  | bin op f g ihf ihg =>
    simp only [impliesNotConvT]
    split_ifs <;> simp only [size] <;> omega

/-- The `conv` pass of `to_implies_false` grows size at most sixfold. -/
theorem size_impliesFalseConvT (f : Formula) :
    size (impliesFalseConvT f) ≤ 6 * size f := by
  induction f with
  | var s => simp [impliesFalseConvT, size]
  | const b => cases b <;> simp [impliesFalseConvT, size]
  | neg f ih => simp only [impliesFalseConvT, size]; omega
  | bin op f g ihf ihg =>
    simp only [impliesFalseConvT]
    split_ifs <;> simp only [size] <;> omega

/-- Size bound for `to_not_and`. -/
theorem size_to_not_andT (f : Formula) :
    size (to_not_andT f) ≤ 2 ^ (depth f + 4) * size f := by
  calc size (to_not_andT f) ≤ 4 * size (naoT f) := size_notAndConvT _
  _ ≤ 4 * (2 ^ (depth f + 2) * size f) :=
      Nat.mul_le_mul (le_refl 4) (size_naoT f)
  _ = 2 ^ (depth f + 4) * size f := by
      rw [show depth f + 4 = 2 + (depth f + 2) from by omega, pow_add]
      ring

/-- Depth bound for `to_not_and`. -/
theorem depth_to_not_andT (f : Formula) :
    depth (to_not_andT f) ≤ 9 * depth f + 8 := by
  have h1 := depth_notAndConvT (naoT f)
  have h2 := depth_naoT f
  unfold to_not_andT
  omega

/-- Size bound for `to_nand`. -/
theorem size_to_nandT (f : Formula) :
    size (to_nandT f) ≤ 2 ^ (10 * depth f + 13) * size f := by
  calc size (to_nandT f) ≤
      2 ^ (depth (to_not_andT f) + 1) * size (to_not_andT f) :=
      size_nandConvT _
  _ ≤ 2 ^ (9 * depth f + 8 + 1) * (2 ^ (depth f + 4) * size f) :=
      Nat.mul_le_mul
        (Nat.pow_le_pow_right (by omega)
          (by have := depth_to_not_andT f; omega))
        (size_to_not_andT f)
  _ = 2 ^ (10 * depth f + 13) * size f := by
      rw [← mul_assoc, ← pow_add,
        show 9 * depth f + 8 + 1 + (depth f + 4) = 10 * depth f + 13
          from by omega]

/-- Size bound for `to_implies_not`. -/
theorem size_to_implies_notT (f : Formula) :
    size (to_implies_notT f) ≤ 2 ^ (depth f + 4) * size f := by
  calc size (to_implies_notT f) ≤ 3 * size (naoT f) :=
      size_impliesNotConvT _
  _ ≤ 4 * (2 ^ (depth f + 2) * size f) :=
      Nat.mul_le_mul (by omega) (size_naoT f)
  _ = 2 ^ (depth f + 4) * size f := by
      rw [show depth f + 4 = 2 + (depth f + 2) from by omega, pow_add]
      ring

/-- Size bound for `to_implies_false`. -/
theorem size_to_implies_falseT (f : Formula) :
    size (to_implies_falseT f) ≤ 2 ^ (depth f + 5) * size f := by
  calc size (to_implies_falseT f) ≤ 6 * size (naoT f) :=
      size_impliesFalseConvT _
  _ ≤ 8 * (2 ^ (depth f + 2) * size f) :=
      Nat.mul_le_mul (by omega) (size_naoT f)
  _ = 2 ^ (depth f + 5) * size f := by
      rw [show depth f + 5 = 3 + (depth f + 2) from by omega, pow_add]
      ring

theorem ok_inj {a b : Formula}
    (h : (Except.ok a : Except String Formula) = .ok b) : a = b := by
  injection h

/-- A constant-free `{~, &, |}`-tree has no constant nodes. -/
theorem hasConst_of_onlyNotAndOr {f : Formula}
    (h : onlyNotAndOr f = true) : hasConst f = false := by
  induction f with
  | var s => rfl
  | const b => simp [onlyNotAndOr] at h
  | neg f ih =>
    simp only [onlyNotAndOr] at h
    simpa [hasConst] using ih h
  | bin op f g ihf ihg =>
    simp only [onlyNotAndOr, Bool.and_eq_true] at h
    simp [hasConst, ihf h.1.2, ihg h.2]

/-- On a constant-free `{~, &, |}`-tree, the base reducer's total mirror
is the identity. -/
theorem naoT_fixed (f : Formula) (h : onlyNotAndOr f = true) :
    naoT f = f := by
  induction f with
  | var s => rfl
  | const b => simp [onlyNotAndOr] at h
  | neg f ih =>
    simp only [onlyNotAndOr] at h
    simp [naoT, ih h]
  | bin op f g ihf ihg =>
    simp only [onlyNotAndOr, Bool.and_eq_true, Bool.or_eq_true,
      decide_eq_true_eq] at h
    obtain ⟨⟨hop, hf⟩, hg⟩ := h
    rcases hop with h | h <;> subst h <;>
      simp [naoT, ihf hf, ihg hg]

/-- C1.  For every well-formed formula over the full operator set and
every truth assignment, each of the five reducers — when it returns a
result — returns a formula with the same truth value as the input under
that assignment.  Assignments are total maps, so in particular they cover
the placeholder variable, for which the result is invariant. -/
theorem C1_semantic_equivalence (f : Formula) (σ : String → Bool)
    (h : wellFormed f = true) :
    (∀ r, to_not_and_or f = .ok r → eval σ r = eval σ f) ∧
    (∀ r, to_not_and f = .ok r → eval σ r = eval σ f) ∧
    (∀ r, to_nand f = .ok r → eval σ r = eval σ f) ∧
    (∀ r, to_implies_not f = .ok r → eval σ r = eval σ f) ∧
    (∀ r, to_implies_false f = .ok r → eval σ r = eval σ f) := by
  refine ⟨fun r hr => ?_, fun r hr => ?_, fun r hr => ?_,
    fun r hr => ?_, fun r hr => ?_⟩
  · rw [← ok_inj ((to_not_and_or_eq_ok f h).symm.trans hr)]
    exact eval_naoT σ f
  · rw [← ok_inj ((to_not_and_eq_ok f h).symm.trans hr)]
    exact eval_to_not_andT σ f
  · rw [← ok_inj ((to_nand_eq_ok f h).symm.trans hr)]
    exact eval_to_nandT σ f
  · rw [← ok_inj ((to_implies_not_eq_ok f h).symm.trans hr)]
    exact eval_to_implies_notT σ f
  · rw [← ok_inj ((to_implies_false_eq_ok f h).symm.trans hr)]
    exact eval_to_implies_falseT σ f

/-- Witness for C1 at the concrete input `(p -> q)` under the all-false
assignment: the reducer output `(~p | q)` evaluates like the input. -/
theorem C1_semantic_equivalence_witness :
    wellFormed (Formula.bin "->" (Formula.var "p") (Formula.var "q")) =
      true ∧
    eval (fun _ => false)
        (Formula.bin "|" (Formula.neg (Formula.var "p"))
          (Formula.var "q")) =
      eval (fun _ => false)
        (Formula.bin "->" (Formula.var "p") (Formula.var "q")) :=
  ⟨by decide,
    (C1_semantic_equivalence
      (Formula.bin "->" (Formula.var "p") (Formula.var "q"))
      (fun _ => false) (by decide)).1 _ (by decide)⟩

/-- C2.  Every output tree of each reducer lies inside that reducer's
guaranteed operator set: `{~, &, |}` with no constants for
`to_not_and_or`; `{~, &}` for `to_not_and`; `{-&}` for `to_nand`;
`{->, ~}` for `to_implies_not`; `{->, F}` for `to_implies_false`. -/
theorem C2_operator_set_containment (f : Formula)
    (h : wellFormed f = true) :
    (∀ r, to_not_and_or f = .ok r → onlyNotAndOr r = true) ∧
    (∀ r, to_not_and f = .ok r → onlyNotAnd r = true) ∧
    (∀ r, to_nand f = .ok r → onlyNand r = true) ∧
    (∀ r, to_implies_not f = .ok r → onlyImpliesNot r = true) ∧
    (∀ r, to_implies_false f = .ok r → onlyImpliesFalse r = true) := by
  refine ⟨fun r hr => ?_, fun r hr => ?_, fun r hr => ?_,
    fun r hr => ?_, fun r hr => ?_⟩
  · rw [← ok_inj ((to_not_and_or_eq_ok f h).symm.trans hr)]
    exact onlyNotAndOr_naoT f h
  · rw [← ok_inj ((to_not_and_eq_ok f h).symm.trans hr)]
    exact onlyNotAnd_notAndConvT _ (onlyNotAndOr_naoT f h)
  · rw [← ok_inj ((to_nand_eq_ok f h).symm.trans hr)]
    exact onlyNand_nandConvT _
      (onlyNotAnd_notAndConvT _ (onlyNotAndOr_naoT f h))
  · rw [← ok_inj ((to_implies_not_eq_ok f h).symm.trans hr)]
    exact onlyImpliesNot_impliesNotConvT _ (onlyNotAndOr_naoT f h)
  · rw [← ok_inj ((to_implies_false_eq_ok f h).symm.trans hr)]
    exact onlyImpliesFalse_impliesFalseConvT _ (onlyNotAndOr_naoT f h)

/-- Witness for C2 at the concrete input `(p + q)` (xor): the
`to_not_and_or` output stays inside `{~, &, |}`. -/
theorem C2_operator_set_containment_witness :
    wellFormed (Formula.bin "+" (Formula.var "p") (Formula.var "q")) =
      true ∧
    onlyNotAndOr
        (Formula.bin "|"
          (Formula.bin "&" (Formula.var "p")
            (Formula.neg (Formula.var "q")))
          (Formula.bin "&" (Formula.neg (Formula.var "p"))
            (Formula.var "q"))) = true :=
  ⟨by decide,
    (C2_operator_set_containment
      (Formula.bin "+" (Formula.var "p") (Formula.var "q"))
      (by decide)).1 _ (by decide)⟩

theorem isOk_iff_aux {e : Except String Formula} {f : Formula}
    (hok : wellFormed f = true → ∃ r, e = .ok r)
    (hwf : ∀ r, e = .ok r → wellFormed f = true) :
    e.isOk = true ↔ wellFormed f = true := by
  cases he : e with
  | error msg =>
    simp only [Except.isOk, Except.toBool, Bool.false_eq_true, false_iff]
    intro hw
    obtain ⟨r, hr⟩ := hok hw
    rw [he] at hr
    exact absurd hr (by simp)
  | ok r =>
    simp only [Except.isOk, Except.toBool, true_iff]
    exact hwf r he

/-- C3.  Each of the five reducers succeeds exactly on well-formed trees:
it never fails on a well-formed tree, and on a tree carrying an operator
symbol outside the known set it returns the unrecognized-operator error
(no partial result — the result type has no other alternative). -/
theorem C3_total_on_wellformed (f : Formula) :
    ((to_not_and_or f).isOk = true ↔ wellFormed f = true) ∧
    ((to_not_and f).isOk = true ↔ wellFormed f = true) ∧
    ((to_nand f).isOk = true ↔ wellFormed f = true) ∧
    ((to_implies_not f).isOk = true ↔ wellFormed f = true) ∧
    ((to_implies_false f).isOk = true ↔ wellFormed f = true) :=
  ⟨isOk_iff_aux (fun h => ⟨naoT f, to_not_and_or_eq_ok f h⟩)
      (fun _ hr => wellFormed_of_to_not_and_or_ok hr),
    isOk_iff_aux (fun h => ⟨to_not_andT f, to_not_and_eq_ok f h⟩)
      (fun _ hr => wellFormed_of_to_not_and_ok hr),
    isOk_iff_aux (fun h => ⟨to_nandT f, to_nand_eq_ok f h⟩)
      (fun _ hr => wellFormed_of_to_nand_ok hr),
    isOk_iff_aux (fun h => ⟨to_implies_notT f, to_implies_not_eq_ok f h⟩)
      (fun _ hr => wellFormed_of_to_implies_not_ok hr),
    isOk_iff_aux
      (fun h => ⟨to_implies_falseT f, to_implies_false_eq_ok f h⟩)
      (fun _ hr => wellFormed_of_to_implies_false_ok hr)⟩

/-- C4 counterexample.  The 8× size bound fails within depth 10: already
on the depth-0 input `T`, `to_nand` produces a tree of 47 nodes from a
single node (its `conv` pass doubles the converted subtree at every `~`
and `&` node of the constant-elimination expansion). -/
theorem C4_size_bound_counterexample :
    wellFormed (Formula.const true) = true ∧
    depth (Formula.const true) ≤ 10 ∧
    (to_nand (Formula.const true)).isOk = true ∧
    ¬ (okSize (to_nand (Formula.const true)) ≤
        8 * size (Formula.const true)) := by decide

/-- C4 amended.  For every well-formed input of depth at most 10, each of
the five reducers returns a tree of size at most `2 ^ 113` times the input
size; the growth is exponential in the input depth (at most
`2 ^ (10·depth + 13) ×`), not linear with a small constant. -/
theorem C4_amended_size_bound (f : Formula) (h : wellFormed f = true)
    (hd : depth f ≤ 10) :
    okSize (to_not_and_or f) ≤ 2 ^ 113 * size f ∧
    okSize (to_not_and f) ≤ 2 ^ 113 * size f ∧
    okSize (to_nand f) ≤ 2 ^ 113 * size f ∧
    okSize (to_implies_not f) ≤ 2 ^ 113 * size f ∧
    okSize (to_implies_false f) ≤ 2 ^ 113 * size f := by
  have mono : ∀ e, e ≤ 113 →
      ∀ s n : Nat, s ≤ 2 ^ e * n → s ≤ 2 ^ 113 * n := by
    intro e he s n hs
    exact le_trans hs
      (Nat.mul_le_mul (Nat.pow_le_pow_right (by omega) he) (le_refl n))
  refine ⟨?_, ?_, ?_, ?_, ?_⟩
  · rw [to_not_and_or_eq_ok f h]
    exact mono (depth f + 2) (by omega) _ _ (size_naoT f)
  · rw [to_not_and_eq_ok f h]
    exact mono (depth f + 4) (by omega) _ _ (size_to_not_andT f)
  · rw [to_nand_eq_ok f h]
    exact mono (10 * depth f + 13) (by omega) _ _ (size_to_nandT f)
  · rw [to_implies_not_eq_ok f h]
    exact mono (depth f + 4) (by omega) _ _ (size_to_implies_notT f)
  · rw [to_implies_false_eq_ok f h]
    exact mono (depth f + 5) (by omega) _ _ (size_to_implies_falseT f)

/-- Witness for the amended C4 at the concrete input `(p & q)`. -/
theorem C4_amended_size_bound_witness :
    wellFormed (Formula.bin "&" (Formula.var "p") (Formula.var "q")) =
      true ∧
    depth (Formula.bin "&" (Formula.var "p") (Formula.var "q")) ≤ 10 ∧
    okSize (to_nand
        (Formula.bin "&" (Formula.var "p") (Formula.var "q"))) ≤
      2 ^ 113 * size (Formula.bin "&" (Formula.var "p") (Formula.var "q")) :=
  ⟨by decide, by decide,
    (C4_amended_size_bound
      (Formula.bin "&" (Formula.var "p") (Formula.var "q"))
      (by decide) (by decide)).2.2.1⟩

/-- C5 counterexample.  On the constant `True`, `to_implies_false` does
not return `(F -> F)`: the constant is eliminated by the first pass
(`to_not_and_or` turns it into `(p | ~p)`), so the `T`-branch of the
second pass is never reached on this input. -/
theorem C5_counterexample :
    to_implies_false (Formula.const true) ≠
      Except.ok (Formula.bin "->" (Formula.const false)
        (Formula.const false)) := by decide

/-- C5 amended.  On the constant `True`, `to_implies_false` returns
exactly `((p -> F) -> (p -> F))` — the image of `(p | ~p)` under its
`conv` pass — which is semantically equivalent to `(F -> F)` under every
assignment. -/
theorem C5_amended_implies_false_on_true (σ : String → Bool) :
    to_implies_false (Formula.const true) =
      Except.ok (Formula.bin "->"
        (Formula.bin "->" (Formula.var "p") (Formula.const false))
        (Formula.bin "->" (Formula.var "p") (Formula.const false))) ∧
    eval σ (Formula.bin "->"
        (Formula.bin "->" (Formula.var "p") (Formula.const false))
        (Formula.bin "->" (Formula.var "p") (Formula.const false))) =
      eval σ (Formula.bin "->" (Formula.const false)
        (Formula.const false)) := by
  refine ⟨by decide, ?_⟩
  simp only [eval, binEval_imp]
  cases σ "p" <;> rfl

/-- C6.  Each reducer, applied to a tree already inside its guaranteed
operator set, succeeds and returns a tree with the same truth table (such
trees are well formed, so the general semantic-equivalence result
applies). -/
theorem C6_idempotence_truth_table (f : Formula) (σ : String → Bool) :
    (onlyNotAndOr f = true →
      ∃ r, to_not_and_or f = .ok r ∧ eval σ r = eval σ f) ∧
    (onlyNotAnd f = true →
      ∃ r, to_not_and f = .ok r ∧ eval σ r = eval σ f) ∧
    (onlyNand f = true →
      ∃ r, to_nand f = .ok r ∧ eval σ r = eval σ f) ∧
    (onlyImpliesNot f = true →
      ∃ r, to_implies_not f = .ok r ∧ eval σ r = eval σ f) ∧
    (onlyImpliesFalse f = true →
      ∃ r, to_implies_false f = .ok r ∧ eval σ r = eval σ f) := by
  refine ⟨fun h => ?_, fun h => ?_, fun h => ?_, fun h => ?_, fun h => ?_⟩
  · exact ⟨naoT f, to_not_and_or_eq_ok f (wellFormed_of_onlyNotAndOr h),
      eval_naoT σ f⟩
  · exact ⟨to_not_andT f, to_not_and_eq_ok f (wellFormed_of_onlyNotAnd h),
      eval_to_not_andT σ f⟩
  · exact ⟨to_nandT f, to_nand_eq_ok f (wellFormed_of_onlyNand h),
      eval_to_nandT σ f⟩
  · exact ⟨to_implies_notT f,
      to_implies_not_eq_ok f (wellFormed_of_onlyImpliesNot h),
      eval_to_implies_notT σ f⟩
  · exact ⟨to_implies_falseT f,
      to_implies_false_eq_ok f (wellFormed_of_onlyImpliesFalse h),
      eval_to_implies_falseT σ f⟩

/-- Witness for C6 at the concrete input `(p -& q)`, already inside
`to_nand`'s guaranteed set, under the all-true assignment. -/
theorem C6_idempotence_truth_table_witness :
    onlyNand (Formula.bin "-&" (Formula.var "p") (Formula.var "q")) =
      true ∧
    (∃ r, to_nand (Formula.bin "-&" (Formula.var "p") (Formula.var "q")) =
        .ok r ∧
      eval (fun _ => true) r =
        eval (fun _ => true)
          (Formula.bin "-&" (Formula.var "p") (Formula.var "q"))) :=
  ⟨by decide,
    (C6_idempotence_truth_table
      (Formula.bin "-&" (Formula.var "p") (Formula.var "q"))
      (fun _ => true)).2.2.1 (by decide)⟩

/-- C7.  On the input `(p & q)`, `to_nand` returns a tree with the same
truth table as `((p -& q) -& (p -& q))`; in fact it returns exactly that
tree. -/
theorem C7_nand_on_conjunction (σ : String → Bool) :
    ∃ r, to_nand (Formula.bin "&" (Formula.var "p") (Formula.var "q")) =
        .ok r ∧
      eval σ r = eval σ (Formula.bin "-&"
        (Formula.bin "-&" (Formula.var "p") (Formula.var "q"))
        (Formula.bin "-&" (Formula.var "p") (Formula.var "q"))) :=
  ⟨Formula.bin "-&"
      (Formula.bin "-&" (Formula.var "p") (Formula.var "q"))
      (Formula.bin "-&" (Formula.var "p") (Formula.var "q")),
    by decide, rfl⟩

/-- C8.  For every well-formed input — constants included — the outputs of
`to_not_and`, `to_nand` and `to_implies_not` contain no constant node at
all, because the first pass `to_not_and_or` eliminates every constant
(first conjunct), leaving the constant branch of each second pass
unreachable. -/
theorem C8_no_constants_in_outputs (f : Formula)
    (h : wellFormed f = true) :
    (∀ r, to_not_and_or f = .ok r → hasConst r = false) ∧
    (∀ r, to_not_and f = .ok r → hasConst r = false) ∧
    (∀ r, to_nand f = .ok r → hasConst r = false) ∧
    (∀ r, to_implies_not f = .ok r → hasConst r = false) := by
  refine ⟨fun r hr => ?_, fun r hr => ?_, fun r hr => ?_,
    fun r hr => ?_⟩
  · rw [← ok_inj ((to_not_and_or_eq_ok f h).symm.trans hr)]
    exact hasConst_of_onlyNotAndOr (onlyNotAndOr_naoT f h)
  · rw [← ok_inj ((to_not_and_eq_ok f h).symm.trans hr)]
    exact hasConst_of_onlyNotAnd
      (onlyNotAnd_notAndConvT _ (onlyNotAndOr_naoT f h))
  · rw [← ok_inj ((to_nand_eq_ok f h).symm.trans hr)]
    exact hasConst_of_onlyNand
      (onlyNand_nandConvT _
        (onlyNotAnd_notAndConvT _ (onlyNotAndOr_naoT f h)))
  · rw [← ok_inj ((to_implies_not_eq_ok f h).symm.trans hr)]
    exact hasConst_of_onlyImpliesNot
      (onlyImpliesNot_impliesNotConvT _ (onlyNotAndOr_naoT f h))

/-- Witness for C8 at the concrete input `(p & T)`, which does contain a
constant: the `to_not_and` output `(p & ~(p & ~p))`-shaped tree is
constant-free. -/
theorem C8_no_constants_in_outputs_witness :
    wellFormed (Formula.bin "&" (Formula.var "p") (Formula.const true)) =
      true ∧
    hasConst (Formula.bin "&" (Formula.var "p")
        (Formula.bin "|" (Formula.var "p")
          (Formula.neg (Formula.var "p")))) = false :=
  ⟨by decide,
    (C8_no_constants_in_outputs
      (Formula.bin "&" (Formula.var "p") (Formula.const true))
      (by decide)).1 _ (by decide)⟩

/-- C9.  The placeholder introduced when eliminating constants is the
literal variable `p`: `T` becomes `(p | ~p)` and `F` becomes `(p & ~p)`,
which evaluate to `true` resp. `false` under every value of `p`; and the
semantic-equivalence guarantee holds for every total assignment — whose
domain covers `p` — even when `p` occurs free in the input. -/
theorem C9_placeholder_variable (f : Formula) (σ : String → Bool)
    (h : wellFormed f = true) :
    to_not_and_or (Formula.const true) =
      .ok (Formula.bin "|" (Formula.var "p")
        (Formula.neg (Formula.var "p"))) ∧
    to_not_and_or (Formula.const false) =
      .ok (Formula.bin "&" (Formula.var "p")
        (Formula.neg (Formula.var "p"))) ∧
    eval σ (Formula.bin "|" (Formula.var "p")
      (Formula.neg (Formula.var "p"))) = true ∧
    eval σ (Formula.bin "&" (Formula.var "p")
      (Formula.neg (Formula.var "p"))) = false ∧
    (∀ r, to_not_and_or f = .ok r → eval σ r = eval σ f) := by
  refine ⟨by decide, by decide, ?_, ?_, fun r hr => ?_⟩
  · simp only [eval, binEval_or]
    cases σ "p" <;> rfl
  · simp only [eval, binEval_and]
    cases σ "p" <;> rfl
  · rw [← ok_inj ((to_not_and_or_eq_ok f h).symm.trans hr)]
    exact eval_naoT σ f

/-- Witness for C9 at the concrete input `(p & T)`, in which the
placeholder name `p` occurs free, under an assignment sending `p` to
`true`: the output `(p & (p | ~p))` still evaluates like the input. -/
theorem C9_placeholder_variable_witness :
    wellFormed (Formula.bin "&" (Formula.var "p") (Formula.const true)) =
      true ∧
    eval (fun _ => true)
        (Formula.bin "&" (Formula.var "p")
          (Formula.bin "|" (Formula.var "p")
            (Formula.neg (Formula.var "p")))) =
      eval (fun _ => true)
        (Formula.bin "&" (Formula.var "p") (Formula.const true)) :=
  ⟨by decide,
    (C9_placeholder_variable
      (Formula.bin "&" (Formula.var "p") (Formula.const true))
      (fun _ => true) (by decide)).2.2.2.2 _ (by decide)⟩

/-- C10.  On constant-free `{~, &, |}`-trees, `to_not_and_or` returns its
input unchanged; consequently, on every well-formed input, applying
`to_not_and_or` to its own output returns that output unchanged. -/
theorem C10_base_reducer_identity (f : Formula) :
    (onlyNotAndOr f = true → to_not_and_or f = .ok f) ∧
    (wellFormed f = true →
      ∀ r, to_not_and_or f = .ok r → to_not_and_or r = .ok r) := by
  constructor
  · intro h
    rw [to_not_and_or_eq_ok f (wellFormed_of_onlyNotAndOr h),
      naoT_fixed f h]
  · intro h r hr
    rw [← ok_inj ((to_not_and_or_eq_ok f h).symm.trans hr)]
    have honly := onlyNotAndOr_naoT f h
    rw [to_not_and_or_eq_ok _ (wellFormed_of_onlyNotAndOr honly),
      naoT_fixed _ honly]

/-- Witness for C10 at the concrete input `(p & ~q)`, already inside
`{~, &, |}` and constant-free: the reducer returns it unchanged. -/
theorem C10_base_reducer_identity_witness :
    onlyNotAndOr (Formula.bin "&" (Formula.var "p")
        (Formula.neg (Formula.var "q"))) = true ∧
    to_not_and_or (Formula.bin "&" (Formula.var "p")
        (Formula.neg (Formula.var "q"))) =
      .ok (Formula.bin "&" (Formula.var "p")
        (Formula.neg (Formula.var "q"))) :=
  ⟨by decide,
    (C10_base_reducer_identity
      (Formula.bin "&" (Formula.var "p")
        (Formula.neg (Formula.var "q")))).1 (by decide)⟩

end Operators
